import Mathlib

/-
Shallow embedding of the matroska-cache dependency-tracked caching layer
(source: matroska_cache/backends/redis.py and matroska_cache/dep/scopes.py),
together with theorems settling the spec claims about it.

Python strings occurring as cached payloads are modelled as lists of
characters; Redis keys are modelled as Lean strings.  The external store is
modelled as explicit state (structure RedisState); the optimistic-transaction
retry loops of the source always succeed in the sequential model, so each
operation is the first (successful) iteration of its loop.
-/

namespace MatroskaCache

/-! ## Serialization (redis.py: serialize / unserialize)

A cached value is either a plain Python string or some other
JSON-serializable value; the JSON encoder and decoder are external
collaborators (the json module), passed in as `dumps` and `loads`. -/

/-- A Python value accepted by the cache: a plain string (modelled as a list
of characters) or any other JSON-serializable value of type alpha. -/
inductive PyData (α : Type) where
  | str : List Char → PyData α
  | obj : α → PyData α
deriving DecidableEq

/-- Format tag for raw strings (redis.py: DATA_STRING = 's'). -/
def DATA_STRING : Char := 's'

/-- Format tag for JSON-encoded values (redis.py: DATA_JSON = 'j'). -/
def DATA_JSON : Char := 'j'

/-- Embedding of redis.py serialize: prepend the one-byte format tag;
strings are passed through, other values are encoded by `dumps`. -/
def serialize {α : Type} (dumps : α → List Char) : PyData α → List Char
  | .str s => DATA_STRING :: s
  | .obj a => DATA_JSON :: dumps a

/-- Embedding of redis.py unserialize: split the one-byte format tag off and
dispatch on it; an unknown tag (or a decode failure) yields none. -/
def unserialize {α : Type} (loads : List Char → Option α) : List Char → Option (PyData α)
  | [] => none
  | c :: rest =>
    if c = DATA_STRING then some (.str rest)
    else if c = DATA_JSON then (loads rest).map .obj
    else none

/-! ## Dependency keys (dep/base.py, dep/tag.py, dependency/id.py,
dep/scopes.py: ConditionalDependency, InvalidateAll) -/

/-- Lexicographic order on condition items, matching how Python sorts the
(key, value) tuples of a dict with sorted(conditions.items()). -/
def pairLe (a b : String × String) : Prop :=
  a.1 < b.1 ∨ (a.1 = b.1 ∧ a.2 ≤ b.2)

instance : DecidableRel pairLe := fun a b => by
  unfold pairLe; infer_instance

/-- Canonical serialization of a condition map, matching
ConditionalDependency.__init__: items sorted, joined with ampersands and
surrounded by ampersands. -/
def condString (conditions : List (String × String)) : String :=
  let sorted := conditions.insertionSort pairLe
  "&" ++ String.intercalate "&" (sorted.map (fun kv => kv.1 ++ "=" ++ kv.2)) ++ "&"

/-- The closed set of dependency-key variants of the repository. -/
inductive Dep where
  | id (ty ident : String)
  | tag (name : String)
  | pk (ty ident : String)
  | conditional (objectType : String) (conditions : List (String × String))
  | invalidateAll (objectType : String)
deriving DecidableEq

/-- Canonical key string of a dependency, embedding each variant's key()
method.  InvalidateAll is a Tag subclass whose PREFIX is the literal
"condition" and whose name is the object type. -/
def Dep.key : Dep → String
  | .id t i => "id:" ++ t ++ ":" ++ i
  | .tag n => "tag:" ++ n
  | .pk t i => "pk:" ++ t ++ ":" ++ i
  | .conditional ot conds => "condition:" ++ ot ++ ":" ++ condString conds
  | .invalidateAll ot => "condition:" ++ ot

/-! ## Redis backend state (backends/redis.py: RedisBackend) -/

/-- The slice of the Redis keyspace used by the backend: payload strings
under data keys (with their TTLs) and reverse-dependency index sets under
rdep keys (with their TTLs).  An absent data key maps to none; an absent
set key maps to the empty list (Redis has no empty sets).  TTL values
follow the Redis convention: nonnegative = seconds remaining, -1 = key
without expiry, -2 = absent key. -/
structure RedisState (α : Type) where
  data : String → Option (List Char)
  dataTtl : String → Int
  rdep : String → List String
  rdepTtl : String → Int

/-- Embedding of RedisBackend._key: build a namespaced Redis key. -/
def mkKey (pfx ty name : String) : String := pfx ++ "::" ++ ty ++ "::" ++ name

/-- The data key of a cache key. -/
def dataKeyOf (pfx key : String) : String := mkKey pfx "data" key

/-- The reverse-dependency index key of a dependency. -/
def rdepKeyOf (pfx : String) (d : Dep) : String := mkKey pfx "rdep" d.key

/-- Result of the Redis TTL command on a set key of our model: -2 when the
key is absent (empty set), otherwise the stored TTL. -/
def ttlCmd {α : Type} (st : RedisState α) (k : String) : Int :=
  if st.rdep k = [] then -2 else st.rdepTtl k

/-- Embedding of the Redis SADD command on an rdep key: add a member to the
set, creating the key (without expiry, TTL -1) when absent. -/
def sadd {α : Type} (st : RedisState α) (key member : String) : RedisState α :=
  { st with
    rdep := fun k =>
      if k = key then
        (if member ∈ st.rdep key then st.rdep key else st.rdep key ++ [member])
      else st.rdep k,
    rdepTtl := fun k =>
      if k = key ∧ st.rdep key = [] then -1 else st.rdepTtl k }

/-- The SADD pipeline of _remember_dependencies_for: add `member` to every
rdep key in the list. -/
def saddAll {α : Type} (st : RedisState α) (member : String) (deps : List String) : RedisState α :=
  deps.foldl (fun s rk => sadd s rk member) st

/-- Embedding of RedisBackend._remember_dependencies_for: deduplicate the
rdep keys, return unchanged when there are none, otherwise add the data key
to every index set and then, in one transaction, re-read every index TTL and
extend exactly those that are shorter than the new entry's expiry. -/
def rememberDependenciesFor {α : Type} (pfx : String) (st : RedisState α)
    (dataKey : String) (dependencies : List Dep) (expires : Int) : RedisState α :=
  let deps := (dependencies.map (fun d => rdepKeyOf pfx d)).dedup
  if deps = [] then st
  else
    let st1 := saddAll st dataKey deps
    { st1 with
      rdepTtl := fun k =>
        if k ∈ deps ∧ ttlCmd st1 k < expires then expires else st1.rdepTtl k }

/-- Embedding of RedisBackend.put: record the dependency information, then
store the serialized payload under the data key with its own TTL (SETEX). -/
def put {α : Type} (pfx : String) (dumps : α → List Char) (st : RedisState α)
    (key : String) (data : PyData α) (dependencies : List Dep) (expires : Int) : RedisState α :=
  let dk := dataKeyOf pfx key
  let st1 := rememberDependenciesFor pfx st dk dependencies expires
  { st1 with
    data := fun k => if k = dk then some (serialize dumps data) else st1.data k,
    dataTtl := fun k => if k = dk then expires else st1.dataTtl k }

/-- Error raised by get on an absent or expired key (exc.py: NotInCache). -/
inductive CacheError where
  | notInCache (key : String)
deriving DecidableEq

/-- Embedding of RedisBackend.get: read the data key; raise NotInCache when
absent, otherwise unserialize. -/
def get {α : Type} (pfx : String) (loads : List Char → Option α) (st : RedisState α)
    (key : String) : Except CacheError (Option (PyData α)) :=
  match st.data (dataKeyOf pfx key) with
  | none => .error (.notInCache key)
  | some d => .ok (unserialize loads d)

/-- Embedding of RedisBackend.has: existence probe on the data key. -/
def has {α : Type} (pfx : String) (st : RedisState α) (key : String) : Bool :=
  (st.data (dataKeyOf pfx key)).isSome

/-- Embedding of RedisBackend.delete: unlink the data key; idempotent. -/
def delete {α : Type} (pfx : String) (st : RedisState α) (key : String) : RedisState α :=
  { st with
    data := fun k => if k = dataKeyOf pfx key then none else st.data k,
    dataTtl := fun k => if k = dataKeyOf pfx key then -2 else st.dataTtl k }

/-- Embedding of RedisBackend.invalidate, paired with the list of store
commands it issues.  An empty dependency iterable returns immediately
(no store calls).  Otherwise the rdep keys are deduplicated, their members
are read (SMEMBERS under WATCH), and when the union of referenced data keys
is non-empty, those data keys and the rdep keys themselves are atomically
unlinked in one transaction. -/
def invalidate {α : Type} (pfx : String) (st : RedisState α)
    (dependencies : List Dep) : RedisState α × List String :=
  if dependencies = [] then (st, [])
  else
    let deps := (dependencies.map (fun d => rdepKeyOf pfx d)).dedup
    let dataKeys := (deps.map st.rdep).flatten
    if dataKeys = [] then
      (st, "WATCH" :: deps.map (fun _ => "SMEMBERS"))
    else
      ({ data := fun k => if k ∈ dataKeys then none else st.data k,
         dataTtl := fun k => if k ∈ dataKeys then -2 else st.dataTtl k,
         rdep := fun k => if k ∈ deps then [] else st.rdep k,
         rdepTtl := fun k => if k ∈ deps then -2 else st.rdepTtl k },
       "WATCH" :: (deps.map (fun _ => "SMEMBERS") ++ ["WATCH", "MULTI", "UNLINK", "EXEC"]))

/-! ## Scopes (dep/scopes.py) -/

/-- Outcome of calling an extractor function on an item: it may raise, return
None (not applicable), or return a dict of parameter values (modelled as an
association list). -/
inductive ExtResult where
  | raise
  | retNone
  | ret (params : List (String × String))
deriving DecidableEq

/-- Canonical form of a Python frozenset of strings: sorted and
deduplicated; two string sets are equal iff their canonical forms are. -/
def setCanon (l : List String) : List String :=
  (l.insertionSort (fun a b => a ≤ b)).dedup

/-- Sorted tuple of strings, matching Python tuple(sorted(l)). -/
def sortStrings (l : List String) : List String :=
  l.insertionSort (fun a b => a ≤ b)

/-- Registration record of one extractor (scopes.py: ExtractorInfo):
the promised parameter-name set, the watched-field set, and the function. -/
structure ExtractorInfo (α : Type) where
  param_names : List String
  watch_modified : List String
  func : α → ExtResult

/-- The Scopes registry (scopes.py: Scopes): object type, ordered extractor
list, the set of registered parameter-name signatures, and the mode flag. -/
structure Scopes (α : Type) where
  object_type : String
  extractor_fns : List (ExtractorInfo α)
  known_signatures : List (List String)
  production_mode : Bool

/-- Embedding of Scopes.__init__: empty registry. -/
def Scopes.init (α : Type) (objectType : String) (productionMode : Bool) : Scopes α :=
  ⟨objectType, [], [], productionMode⟩

/-- Embedding of Scopes.describes (the decorator, as an explicit
registration call): append the ExtractorInfo — watch_modified defaults to
the parameter names when absent or empty — and add the sorted signature
tuple to the signature set. -/
def describes {α : Type} (s : Scopes α) (paramNames : List String)
    (watchModified : Option (List String)) (fn : α → ExtResult) : Scopes α :=
  let w := match watchModified with
    | some w0 => if w0 = [] then paramNames else w0
    | none => paramNames
  { s with
    extractor_fns := s.extractor_fns ++ [⟨setCanon paramNames, setCanon w, fn⟩],
    known_signatures :=
      if sortStrings paramNames ∈ s.known_signatures then s.known_signatures
      else s.known_signatures ++ [sortStrings paramNames] }

/-- A Scopes registry built from a list of registrations, mirroring a setup
phase of consecutive describes calls on a fresh instance. -/
def buildScopes {α : Type} (objectType : String) (productionMode : Bool)
    (regs : List (List String × Option (List String) × (α → ExtResult))) : Scopes α :=
  regs.foldl (fun s r => describes s r.1 r.2.1 r.2.2) (Scopes.init α objectType productionMode)

/-- Outcome of Scopes.condition: a normal dependency list, a dependency
list accompanied by a warning (warnings.warn), or a raised RuntimeError. -/
inductive CondResult where
  | ok (deps : List Dep)
  | warned (deps : List Dep)
  | error (msg : String)
deriving DecidableEq

/-- Embedding of Scopes.condition: when the sorted parameter-name signature
of the filters is registered, return the ConditionalDependency plus the
kill-switch; otherwise warn and return only the kill-switch in production
mode, or raise in development mode. -/
def condition {α : Type} (s : Scopes α) (conditions : List (String × String)) : CondResult :=
  let sig := sortStrings (conditions.map Prod.fst)
  if sig ∈ s.known_signatures then
    .ok [Dep.conditional s.object_type conditions, Dep.invalidateAll s.object_type]
  else if s.production_mode then
    .warned [Dep.invalidateAll s.object_type]
  else
    .error "no extractor function is described for this condition"

/-- Embedding of the skip test of Scopes.object_invalidates: an extractor is
skipped iff `modified` was provided, is non-empty (Python truthiness), and
its watched-field set does not intersect it. -/
def skipQ {α : Type} (modified : Option (List String)) (e : ExtractorInfo α) : Bool :=
  match modified with
  | none => false
  | some m => !m.isEmpty && e.watch_modified.all (fun w => !(m.contains w))

/-- The extractor loop of Scopes.object_invalidates, with the accumulated
dependency list threaded through (Python builds ret by append; the
production-mode degradation paths abandon the accumulator and return only
the kill-switch). -/
def goExtract {α : Type} (s : Scopes α) (item : α) (modified : Option (List String)) :
    List (ExtractorInfo α) → List Dep → Except String (List Dep)
  | [], acc => .ok acc.reverse
  | e :: rest, acc =>
    if skipQ modified e then goExtract s item modified rest acc
    else
      match e.func item with
      | .raise =>
        if s.production_mode then .ok [Dep.invalidateAll s.object_type]
        else .error "extractor raised"
      | .retNone => goExtract s item modified rest acc
      | .ret params =>
        if setCanon (params.map Prod.fst) = e.param_names then
          goExtract s item modified rest (Dep.conditional s.object_type params :: acc)
        else if s.production_mode then .ok [Dep.invalidateAll s.object_type]
        else .error "extractor returned wrong params"

/-- Embedding of Scopes.object_invalidates: run the extractor loop over the
registered extractors with an empty accumulator. -/
def objectInvalidates {α : Type} (s : Scopes α) (item : α)
    (modified : Option (List String)) : Except String (List Dep) :=
  goExtract s item modified s.extractor_fns []

/-! ## Shared concrete instances used by witnesses -/

/-- A trivial JSON encoder used to instantiate the external json.dumps
collaborator in witnesses. -/
def dumpsU : Unit → List Char := fun _ => []

/-- A trivial JSON decoder used to instantiate the external json.loads
collaborator in witnesses. -/
def loadsU : List Char → Option Unit := fun _ => some ()

/-- An empty Redis keyspace. -/
def stEmpty : RedisState Unit :=
  ⟨fun _ => none, fun _ => -2, fun _ => [], fun _ => -2⟩

/-- A keyspace holding one reverse-dependency index key with TTL 50,
as left behind by an earlier entry. -/
def stC4 : RedisState Unit :=
  ⟨fun _ => none, fun _ => -2,
   fun k => if k = "p::rdep::tag:t" then ["p::data::old"] else [],
   fun k => if k = "p::rdep::tag:t" then 50 else -2⟩

/-! ## Backend lemmas -/

theorem unserialize_serialize {α : Type} (dumps : α → List Char)
    (loads : List Char → Option α) (hrt : ∀ a, loads (dumps a) = some a)
    (d : PyData α) : unserialize loads (serialize dumps d) = some d := by
  cases d with
  | str s => simp [serialize, unserialize]
  | obj a => simp [serialize, unserialize, DATA_STRING, DATA_JSON, hrt]

theorem invalidate_nil {α : Type} (pfx : String) (st : RedisState α) :
    invalidate pfx st [] = (st, []) := rfl

theorem put_data {α : Type} (pfx : String) (dumps : α → List Char)
    (st : RedisState α) (key : String) (data : PyData α) (deps : List Dep)
    (expires : Int) :
    (put pfx dumps st key data deps expires).data (dataKeyOf pfx key)
      = some (serialize dumps data) := by
  unfold put
  simp

theorem put_rdep {α : Type} (pfx : String) (dumps : α → List Char)
    (st : RedisState α) (key : String) (data : PyData α) (deps : List Dep)
    (expires : Int) :
    (put pfx dumps st key data deps expires).rdep
      = (rememberDependenciesFor pfx st (dataKeyOf pfx key) deps expires).rdep := rfl

theorem put_rdepTtl {α : Type} (pfx : String) (dumps : α → List Char)
    (st : RedisState α) (key : String) (data : PyData α) (deps : List Dep)
    (expires : Int) :
    (put pfx dumps st key data deps expires).rdepTtl
      = (rememberDependenciesFor pfx st (dataKeyOf pfx key) deps expires).rdepTtl := rfl

theorem remember_nil {α : Type} (pfx : String) (st : RedisState α)
    (dataKey : String) (expires : Int) :
    rememberDependenciesFor pfx st dataKey [] expires = st := rfl

/-- A member already present in some index set survives any further SADD. -/
theorem sadd_mem_mono {α : Type} (st : RedisState α) (k key member x : String)
    (h : x ∈ st.rdep k) : x ∈ (sadd st key member).rdep k := by
  unfold sadd
  dsimp only
  by_cases hk : k = key
  · subst hk
    rw [if_pos rfl]
    split
    · exact h
    · exact List.mem_append_left _ h
  · rwa [if_neg hk]

theorem saddAll_mem_mono {α : Type} (st : RedisState α) (member x k : String)
    (deps : List String) (h : x ∈ st.rdep k) :
    x ∈ (saddAll st member deps).rdep k := by
  induction deps generalizing st with
  | nil => exact h
  | cons rk rest ih => exact ih _ (sadd_mem_mono st k rk member x h)

/-- SADD puts the member into the target set. -/
theorem sadd_mem_self {α : Type} (st : RedisState α) (key member : String) :
    member ∈ (sadd st key member).rdep key := by
  unfold sadd
  dsimp only
  rw [if_pos rfl]
  split
  · assumption
  · exact List.mem_append_right _ (List.mem_singleton_self member)

/-- After the SADD pipeline, the data key is a member of every touched
index set. -/
theorem saddAll_mem {α : Type} (st : RedisState α) (member rk : String)
    (deps : List String) (h : rk ∈ deps) :
    member ∈ (saddAll st member deps).rdep rk := by
  induction deps generalizing st with
  | nil => cases h
  | cons rk0 rest ih =>
    rcases List.mem_cons.mp h with h0 | h0
    · subst h0
      exact saddAll_mem_mono (sadd st rk member) member member rk rest
        (sadd_mem_self st rk member)
    · exact ih _ h0

/-- The data key survives the whole _remember_dependencies_for step into
every index set of the entry's dependencies. -/
theorem remember_mem {α : Type} (pfx : String) (st : RedisState α)
    (dataKey : String) (dependencies : List Dep) (expires : Int) (D : Dep)
    (hD : D ∈ dependencies) :
    dataKey ∈ (rememberDependenciesFor pfx st dataKey dependencies expires).rdep
      (rdepKeyOf pfx D) := by
  unfold rememberDependenciesFor
  have hmem : rdepKeyOf pfx D ∈ (dependencies.map (fun d => rdepKeyOf pfx d)).dedup :=
    List.mem_dedup.mpr (List.mem_map_of_mem _ hD)
  rw [if_neg (List.ne_nil_of_mem hmem)]
  exact saddAll_mem _ _ _ _ hmem

/-- Core frame property of invalidate: a data key that no requested index
set references is left untouched. -/
theorem inv_preserves_data {α : Type} (pfx : String) (st : RedisState α)
    (S : List Dep) (dk : String)
    (h : ∀ d ∈ S, dk ∉ st.rdep (rdepKeyOf pfx d)) :
    ((invalidate pfx st S).1).data dk = st.data dk := by
  unfold invalidate
  split
  · rfl
  · dsimp only
    split
    · rfl
    · dsimp only
      rw [if_neg]
      intro hmem
      rcases List.mem_flatten.mp hmem with ⟨l, hl, hdl⟩
      rcases List.mem_map.mp hl with ⟨rk, hrk, hrkl⟩
      rcases List.mem_map.mp (List.mem_dedup.mp hrk) with ⟨d, hdS, hd⟩
      exact h d hdS (hd ▸ hrkl ▸ hdl)

/-- Core removal property of invalidate: when some requested index set
references a data key, that data key is deleted and every requested index
key is deleted as well. -/
theorem inv_removes {α : Type} (pfx : String) (st : RedisState α) (S : List Dep)
    (x : String) (D : Dep) (hD : D ∈ S) (hx : x ∈ st.rdep (rdepKeyOf pfx D)) :
    ((invalidate pfx st S).1).data x = none ∧
    ∀ d ∈ S, ((invalidate pfx st S).1).rdep (rdepKeyOf pfx d) = [] := by
  unfold invalidate
  rw [if_neg (List.ne_nil_of_mem hD)]
  dsimp only
  have hxmem : x ∈ (((S.map (fun d => rdepKeyOf pfx d)).dedup).map st.rdep).flatten :=
    List.mem_flatten.mpr ⟨st.rdep (rdepKeyOf pfx D),
      List.mem_map_of_mem _ (List.mem_dedup.mpr (List.mem_map_of_mem _ hD)), hx⟩
  rw [if_neg (List.ne_nil_of_mem hxmem)]
  constructor
  · exact if_pos hxmem
  · intro d hd
    exact if_pos (List.mem_dedup.mpr (List.mem_map_of_mem _ hd))

/-! ## Claim theorems: backend -/

/-- C1: an entry put with dependency D among its set is removed by a
subsequent invalidate of any dependency set containing D: has becomes
false, get fails with NotInCache, and the reverse-index entries of all the
invalidated dependencies are removed. -/
theorem claim1_invalidation_reachability {α : Type} (pfx : String)
    (dumps : α → List Char) (loads : List Char → Option α)
    (st : RedisState α) (key : String) (data : PyData α)
    (deps : List Dep) (expires : Int) (D : Dep) (S : List Dep)
    (hD : D ∈ deps) (hS : D ∈ S) :
    has pfx ((invalidate pfx (put pfx dumps st key data deps expires) S).1) key = false ∧
    get pfx loads ((invalidate pfx (put pfx dumps st key data deps expires) S).1) key
      = .error (.notInCache key) ∧
    ∀ d ∈ S, ((invalidate pfx (put pfx dumps st key data deps expires) S).1).rdep
      (rdepKeyOf pfx d) = [] := by
  have hmem : dataKeyOf pfx key ∈
      (put pfx dumps st key data deps expires).rdep (rdepKeyOf pfx D) := by
    rw [put_rdep]
    exact remember_mem pfx st _ deps expires D hD
  obtain ⟨h1, h2⟩ :=
    inv_removes pfx (put pfx dumps st key data deps expires) S (dataKeyOf pfx key) D hS hmem
  refine ⟨?_, ?_, h2⟩
  · unfold has
    rw [h1]
    rfl
  · unfold get
    rw [h1]

/-- C1 witness: a concrete put followed by an invalidation of its
dependency. -/
theorem claim1_witness :
    (Dep.id "article" "1" ∈ [Dep.id "article" "1"]) ∧
    (has "p" ((invalidate "p"
        (put "p" dumpsU stEmpty "k" (.str ['a']) [Dep.id "article" "1"] 100)
        [Dep.id "article" "1"]).1) "k" = false ∧
     get "p" loadsU ((invalidate "p"
        (put "p" dumpsU stEmpty "k" (.str ['a']) [Dep.id "article" "1"] 100)
        [Dep.id "article" "1"]).1) "k" = .error (.notInCache "k") ∧
     ∀ d ∈ [Dep.id "article" "1"],
       ((invalidate "p"
        (put "p" dumpsU stEmpty "k" (.str ['a']) [Dep.id "article" "1"] 100)
        [Dep.id "article" "1"]).1).rdep (rdepKeyOf "p" d) = []) :=
  ⟨by decide,
   claim1_invalidation_reachability "p" dumpsU loadsU stEmpty "k" (.str ['a'])
     [Dep.id "article" "1"] 100 (Dep.id "article" "1") [Dep.id "article" "1"]
     (by decide) (by decide)⟩

/-- C2: invalidate never removes an entry that none of the requested
dependencies currently lists in its reverse-index set, and invalidate of
the empty set returns the state unchanged with no store calls. -/
theorem claim2_invalidation_precision {α : Type} (pfx : String)
    (st : RedisState α) (S : List Dep) (key : String)
    (h : ∀ d ∈ S, dataKeyOf pfx key ∉ st.rdep (rdepKeyOf pfx d)) :
    ((invalidate pfx st S).1).data (dataKeyOf pfx key) = st.data (dataKeyOf pfx key) ∧
    invalidate pfx st ([] : List Dep) = (st, ([] : List String)) :=
  ⟨inv_preserves_data pfx st S _ h, invalidate_nil pfx st⟩

/-- C2 witness: a concrete state where the entry's dependency set is
disjoint from the invalidated set. -/
theorem claim2_witness :
    (∀ d ∈ [Dep.tag "other"], dataKeyOf "p" "k" ∉ stEmpty.rdep (rdepKeyOf "p" d)) ∧
    (((invalidate "p" stEmpty [Dep.tag "other"]).1).data (dataKeyOf "p" "k")
        = stEmpty.data (dataKeyOf "p" "k") ∧
     invalidate "p" stEmpty ([] : List Dep) = (stEmpty, ([] : List String))) :=
  ⟨by decide,
   claim2_invalidation_precision "p" stEmpty [Dep.tag "other"] "k" (by decide)⟩

/-- C3: put followed by get returns the stored data unchanged (the tag-byte
serialization layer round-trips, given that the external JSON encoder and
decoder round-trip), and has is true. -/
theorem claim3_roundtrip {α : Type} (pfx : String) (dumps : α → List Char)
    (loads : List Char → Option α) (st : RedisState α) (key : String)
    (data : PyData α) (deps : List Dep) (expires : Int)
    (hrt : ∀ a, loads (dumps a) = some a) (_hexp : 0 < expires) :
    get pfx loads (put pfx dumps st key data deps expires) key = .ok (some data) ∧
    has pfx (put pfx dumps st key data deps expires) key = true := by
  constructor
  · unfold get
    rw [put_data]
    dsimp only
    rw [unserialize_serialize dumps loads hrt]
  · unfold has
    rw [put_data]
    rfl

/-- C3 witness: a concrete round trip through put and get. -/
theorem claim3_witness :
    (∀ a, loadsU (dumpsU a) = some a) ∧ ((0 : Int) < 60) ∧
    (get "p" loadsU (put "p" dumpsU stEmpty "k" (.str ['h', 'i']) [Dep.tag "t"] 60) "k"
        = .ok (some (.str ['h', 'i'])) ∧
     has "p" (put "p" dumpsU stEmpty "k" (.str ['h', 'i']) [Dep.tag "t"] 60) "k" = true) :=
  ⟨fun a => by cases a; rfl, by decide,
   claim3_roundtrip "p" dumpsU loadsU stEmpty "k" (.str ['h', 'i']) [Dep.tag "t"] 60
     (fun a => by cases a; rfl) (by decide)⟩

/-- C10: put with an empty dependency set stores the payload (get returns
it, has is true), writes no reverse-index entries (the index and its TTLs
are untouched), and — provided no index set already referenced this data
key — the entry survives any invalidate call. -/
theorem claim10_empty_deps {α : Type} (pfx : String) (dumps : α → List Char)
    (loads : List Char → Option α) (st : RedisState α) (key : String)
    (data : PyData α) (expires : Int)
    (hrt : ∀ a, loads (dumps a) = some a)
    (hclean : ∀ rk, dataKeyOf pfx key ∉ st.rdep rk) :
    get pfx loads (put pfx dumps st key data [] expires) key = .ok (some data) ∧
    has pfx (put pfx dumps st key data [] expires) key = true ∧
    (put pfx dumps st key data [] expires).rdep = st.rdep ∧
    (put pfx dumps st key data [] expires).rdepTtl = st.rdepTtl ∧
    ∀ S, ((invalidate pfx (put pfx dumps st key data [] expires) S).1).data
        (dataKeyOf pfx key) = some (serialize dumps data) := by
  have hr : (put pfx dumps st key data [] expires).rdep = st.rdep := by
    rw [put_rdep, remember_nil]
  refine ⟨?_, ?_, hr, by rw [put_rdepTtl, remember_nil], ?_⟩
  · unfold get
    rw [put_data]
    dsimp only
    rw [unserialize_serialize dumps loads hrt]
  · unfold has
    rw [put_data]
    rfl
  · intro S
    rw [inv_preserves_data pfx _ S (dataKeyOf pfx key)
          (by rw [hr]; intro d _; exact hclean _), put_data]

/-- C10 witness: a concrete put with no dependencies into a clean state,
surviving a concrete invalidate. -/
theorem claim10_witness :
    (∀ a, loadsU (dumpsU a) = some a) ∧
    (∀ rk ∈ [rdepKeyOf "p" (Dep.tag "t")], dataKeyOf "p" "k" ∉ stEmpty.rdep rk) ∧
    (((invalidate "p" (put "p" dumpsU stEmpty "k" (.str ['a']) [] 60) [Dep.tag "t"]).1).data
        (dataKeyOf "p" "k") = some (serialize dumpsU (.str ['a'])) ∧
     has "p" (put "p" dumpsU stEmpty "k" (.str ['a']) [] 60) "k" = true) :=
  ⟨fun a => by cases a; rfl, by decide,
   ((claim10_empty_deps "p" dumpsU loadsU stEmpty "k" (.str ['a']) 60
      (fun a => by cases a; rfl) (fun rk => by simp [stEmpty])).2.2.2.2 [Dep.tag "t"]),
   ((claim10_empty_deps "p" dumpsU loadsU stEmpty "k" (.str ['a']) 60
      (fun a => by cases a; rfl) (fun rk => by simp [stEmpty])).2.1)⟩

/-! ## TTL lemmas and claim C4 -/

/-- SADD on any key leaves the TTL of a key whose set is already non-empty
unchanged, and keeps that set non-empty. -/
theorem sadd_preserve_ne {α : Type} (st : RedisState α) (key member k : String)
    (h : st.rdep k ≠ []) :
    (sadd st key member).rdep k ≠ [] ∧ (sadd st key member).rdepTtl k = st.rdepTtl k := by
  unfold sadd
  dsimp only
  constructor
  · by_cases hk : k = key
    · subst hk
      rw [if_pos rfl]
      split
      · exact h
      · simp
    · rwa [if_neg hk]
  · rw [if_neg]
    rintro ⟨hk, hempty⟩
    exact h (hk ▸ hempty)

theorem saddAll_preserve_ne {α : Type} (st : RedisState α) (member k : String)
    (deps : List String) (h : st.rdep k ≠ []) :
    (saddAll st member deps).rdep k ≠ [] ∧
    (saddAll st member deps).rdepTtl k = st.rdepTtl k := by
  induction deps generalizing st with
  | nil => exact ⟨h, rfl⟩
  | cons rk rest ih =>
    obtain ⟨h1, h2⟩ := sadd_preserve_ne st rk member k h
    obtain ⟨h3, h4⟩ := ih (sadd st rk member) h1
    exact ⟨h3, h4.trans h2⟩

/-- SADD never lowers the readable TTL of any key: an absent key can only
become a fresh key without expiry (TTL -1), and an existing key is
untouched. -/
theorem ttlCmd_sadd_mono {α : Type} (st : RedisState α) (key member k : String) :
    ttlCmd st k ≤ ttlCmd (sadd st key member) k := by
  by_cases he : st.rdep k = []
  · rw [ttlCmd, if_pos he]
    unfold ttlCmd
    split
    · exact le_refl _
    · rename_i hne
      unfold sadd at hne ⊢
      dsimp only at hne ⊢
      by_cases hk : k = key
      · subst hk
        rw [if_pos ⟨rfl, he⟩]
        norm_num
      · rw [if_neg hk] at hne
        exact absurd he hne
  · obtain ⟨h1, h2⟩ := sadd_preserve_ne st key member k he
    rw [ttlCmd, if_neg he, ttlCmd, if_neg h1, h2]

theorem ttlCmd_saddAll_mono {α : Type} (st : RedisState α) (member k : String)
    (deps : List String) : ttlCmd st k ≤ ttlCmd (saddAll st member deps) k := by
  induction deps generalizing st with
  | nil => exact le_refl _
  | cons rk rest ih =>
    exact le_trans (ttlCmd_sadd_mono st rk member k) (ih (sadd st rk member))

/-- The TTL-extension transaction of _remember_dependencies_for only ever
raises readable TTLs. -/
theorem expire_step_mono {α : Type} (st1 : RedisState α) (deps : List String)
    (expires : Int) (k : String) :
    ttlCmd st1 k ≤ ttlCmd ({ st1 with rdepTtl := fun k =>
      if (k ∈ deps ∧ ttlCmd st1 k < expires) then expires else st1.rdepTtl k } : RedisState α) k := by
  unfold ttlCmd
  dsimp only
  by_cases he : st1.rdep k = []
  · rw [if_pos he, if_pos he]
  · rw [if_neg he, if_neg he]
    by_cases hc : k ∈ deps ∧ st1.rdepTtl k < expires
    · rw [if_pos hc]
      exact le_of_lt hc.2
    · rw [if_neg hc]

theorem ttlCmd_remember_mono {α : Type} (pfx : String) (st : RedisState α)
    (dataKey : String) (dependencies : List Dep) (expires : Int) (k : String) :
    ttlCmd st k ≤ ttlCmd (rememberDependenciesFor pfx st dataKey dependencies expires) k := by
  unfold rememberDependenciesFor
  dsimp only
  by_cases hd : (dependencies.map (fun d => rdepKeyOf pfx d)).dedup = []
  · rw [if_pos hd]
  · rw [if_neg hd]
    exact le_trans (ttlCmd_saddAll_mono st dataKey k _) (expire_step_mono _ _ _ k)

/-- The TTL-extension step sets a touched, already existing index key's TTL
to the maximum of its current TTL and the new entry's expiry. -/
theorem remember_ttl_existing {α : Type} (pfx : String) (st : RedisState α)
    (dataKey : String) (dependencies : List Dep) (expires : Int) (D : Dep)
    (hD : D ∈ dependencies) (hne : st.rdep (rdepKeyOf pfx D) ≠ []) :
    (rememberDependenciesFor pfx st dataKey dependencies expires).rdepTtl (rdepKeyOf pfx D)
      = max (st.rdepTtl (rdepKeyOf pfx D)) expires := by
  unfold rememberDependenciesFor
  have hmem : rdepKeyOf pfx D ∈ (dependencies.map (fun d => rdepKeyOf pfx d)).dedup :=
    List.mem_dedup.mpr (List.mem_map_of_mem _ hD)
  rw [if_neg (List.ne_nil_of_mem hmem)]
  dsimp only
  obtain ⟨h1, h2⟩ := saddAll_preserve_ne st dataKey (rdepKeyOf pfx D) _ hne
  by_cases hlt : st.rdepTtl (rdepKeyOf pfx D) < expires
  · rw [if_pos ⟨hmem, by rw [ttlCmd, if_neg h1, h2]; exact hlt⟩]
    exact (max_eq_right (le_of_lt hlt)).symm
  · rw [if_neg (by rintro ⟨-, hc⟩; rw [ttlCmd, if_neg h1, h2] at hc; exact hlt hc), h2]
    exact (max_eq_left (le_of_not_lt hlt)).symm

/-- C4: for an index key that already exists, a put touching it sets its
TTL to the maximum of the previous TTL and the new entry's TTL; and a put
never lowers the readable TTL of any index key. -/
theorem claim4_ttl_monotonicity {α : Type} (pfx : String) (dumps : α → List Char)
    (st : RedisState α) (key : String) (data : PyData α) (deps : List Dep)
    (expires : Int) (D : Dep)
    (hD : D ∈ deps) (hne : st.rdep (rdepKeyOf pfx D) ≠ []) :
    (put pfx dumps st key data deps expires).rdepTtl (rdepKeyOf pfx D)
      = max (st.rdepTtl (rdepKeyOf pfx D)) expires ∧
    ∀ k, ttlCmd st k ≤ ttlCmd (put pfx dumps st key data deps expires) k := by
  constructor
  · rw [put_rdepTtl]
    exact remember_ttl_existing pfx st _ deps expires D hD hne
  · intro k
    have hput : ttlCmd (put pfx dumps st key data deps expires) k
        = ttlCmd (rememberDependenciesFor pfx st (dataKeyOf pfx key) deps expires) k := rfl
    rw [hput]
    exact ttlCmd_remember_mono pfx st _ deps expires k

/-- C4 witness: a put with TTL 100 touching an index key whose TTL was 50
raises it to 100 = max(50, 100). -/
theorem claim4_witness :
    (Dep.tag "t" ∈ [Dep.tag "t"]) ∧
    (stC4.rdep (rdepKeyOf "p" (Dep.tag "t")) ≠ []) ∧
    ((put "p" dumpsU stC4 "k" (.str ['a']) [Dep.tag "t"] 100).rdepTtl
        (rdepKeyOf "p" (Dep.tag "t"))
      = max (stC4.rdepTtl (rdepKeyOf "p" (Dep.tag "t"))) 100 ∧
     ∀ k, ttlCmd stC4 k ≤ ttlCmd (put "p" dumpsU stC4 "k" (.str ['a']) [Dep.tag "t"] 100) k) :=
  ⟨by decide, by decide,
   claim4_ttl_monotonicity "p" dumpsU stC4 "k" (.str ['a']) [Dep.tag "t"] 100
     (Dep.tag "t") (by decide) (by decide)⟩

/-! ## Dependency-key canonicalization (claim C9) -/

instance : IsTotal (String × String) pairLe :=
  ⟨fun a b => by
    rcases lt_trichotomy a.1 b.1 with h | h | h
    · exact Or.inl (Or.inl h)
    · rcases le_total a.2 b.2 with h2 | h2
      · exact Or.inl (Or.inr ⟨h, h2⟩)
      · exact Or.inr (Or.inr ⟨h.symm, h2⟩)
    · exact Or.inr (Or.inl h)⟩

instance : IsTrans (String × String) pairLe :=
  ⟨fun a b c hab hbc => by
    rcases hab with h1 | ⟨h1e, h1le⟩ <;> rcases hbc with h2 | ⟨h2e, h2le⟩
    · exact Or.inl (lt_trans h1 h2)
    · exact Or.inl (lt_of_lt_of_le h1 (le_of_eq h2e))
    · exact Or.inl (lt_of_le_of_lt (le_of_eq h1e) h2)
    · exact Or.inr ⟨h1e.trans h2e, le_trans h1le h2le⟩⟩

instance : IsAntisymm (String × String) pairLe :=
  ⟨fun a b hab hba => by
    rcases hab with h1 | ⟨h1e, h1le⟩ <;> rcases hba with h2 | ⟨h2e, h2le⟩
    · exact absurd h2 (lt_asymm h1)
    · exact absurd h1 (by rw [h2e]; exact lt_irrefl _)
    · exact absurd h2 (by rw [h1e]; exact lt_irrefl _)
    · exact Prod.ext h1e (le_antisymm h1le h2le)⟩

/-- Two condition maps with the same items produce the same canonical
condition string: insertion sort under a total antisymmetric order maps
permutations to the same sorted list. -/
theorem condString_perm (l1 l2 : List (String × String)) (h : l1.Perm l2) :
    condString l1 = condString l2 := by
  unfold condString
  rw [List.eq_of_perm_of_sorted
    ((List.perm_insertionSort pairLe l1).trans
      (h.trans (List.perm_insertionSort pairLe l2).symm))
    (List.sorted_insertionSort pairLe l1) (List.sorted_insertionSort pairLe l2)]

/-- C9: two ConditionalDependency values built from the same key-value
pairs in any order have identical canonical dependency keys. -/
theorem claim9_condition_collision (ot : String) (l1 l2 : List (String × String))
    (h : l1.Perm l2) :
    (Dep.conditional ot l1).key = (Dep.conditional ot l2).key := by
  show "condition:" ++ ot ++ ":" ++ condString l1 = "condition:" ++ ot ++ ":" ++ condString l2
  rw [condString_perm l1 l2 h]

/-- C9 witness: the same filter stated in both argument orders. -/
theorem claim9_witness :
    ([("b", "2"), ("a", "1")] : List (String × String)).Perm [("a", "1"), ("b", "2")] ∧
    (Dep.conditional "article" [("b", "2"), ("a", "1")]).key
      = (Dep.conditional "article" [("a", "1"), ("b", "2")]).key :=
  ⟨by decide,
   claim9_condition_collision "article" [("b", "2"), ("a", "1")] [("a", "1"), ("b", "2")]
     (by decide)⟩

/-! ## Scopes registration (claims C5, C7) -/

theorem foldl_describes_object_type {α : Type}
    (regs : List (List String × Option (List String) × (α → ExtResult)))
    (s : Scopes α) :
    (regs.foldl (fun s r => describes s r.1 r.2.1 r.2.2) s).object_type = s.object_type := by
  induction regs generalizing s with
  | nil => rfl
  | cons r rest ih =>
    rw [List.foldl_cons, ih]
    rfl

theorem foldl_describes_production_mode {α : Type}
    (regs : List (List String × Option (List String) × (α → ExtResult)))
    (s : Scopes α) :
    (regs.foldl (fun s r => describes s r.1 r.2.1 r.2.2) s).production_mode
      = s.production_mode := by
  induction regs generalizing s with
  | nil => rfl
  | cons r rest ih =>
    rw [List.foldl_cons, ih]
    rfl

/-- A signature is registered after a sequence of describes calls iff it
was registered before or one of the calls carries it. -/
theorem foldl_describes_known {α : Type}
    (regs : List (List String × Option (List String) × (α → ExtResult)))
    (s : Scopes α) (sig : List String) :
    sig ∈ (regs.foldl (fun s r => describes s r.1 r.2.1 r.2.2) s).known_signatures ↔
      sig ∈ s.known_signatures ∨ ∃ r ∈ regs, sortStrings r.1 = sig := by
  induction regs generalizing s with
  | nil =>
    constructor
    · exact Or.inl
    · rintro (h | ⟨x, hx, -⟩)
      · exact h
      · cases hx
  | cons r rest ih =>
    rw [List.foldl_cons, ih]
    unfold describes
    dsimp only
    by_cases hm : sortStrings r.1 ∈ s.known_signatures
    · rw [if_pos hm]
      constructor
      · rintro (h | ⟨x, hx, hP⟩)
        · exact Or.inl h
        · exact Or.inr ⟨x, List.mem_cons_of_mem r hx, hP⟩
      · rintro (h | ⟨x, hx, hP⟩)
        · exact Or.inl h
        · rcases List.mem_cons.mp hx with rfl | hx
          · exact Or.inl (hP ▸ hm)
          · exact Or.inr ⟨x, hx, hP⟩
    · rw [if_neg hm]
      constructor
      · rintro (h | ⟨x, hx, hP⟩)
        · rcases List.mem_append.mp h with h | h
          · exact Or.inl h
          · exact Or.inr ⟨r, List.mem_cons_self r rest, (List.mem_singleton.mp h).symm⟩
        · exact Or.inr ⟨x, List.mem_cons_of_mem r hx, hP⟩
      · rintro (h | ⟨x, hx, hP⟩)
        · exact Or.inl (List.mem_append_left _ h)
        · rcases List.mem_cons.mp hx with rfl | hx
          · exact Or.inl (List.mem_append_right _ (hP ▸ List.mem_singleton_self _))
          · exact Or.inr ⟨x, hx, hP⟩

/-- C5 (amended): registering a parameter-name set that is already
registered succeeds silently; the extractor is appended to the registry
(both stay active) and the signature set is unchanged. -/
theorem claim5_duplicate_describes {α : Type} (s : Scopes α) (pn : List String)
    (w : Option (List String)) (fn : α → ExtResult)
    (hdup : sortStrings pn ∈ s.known_signatures) :
    (describes s pn w fn).extractor_fns.length = s.extractor_fns.length + 1 ∧
    (describes s pn w fn).known_signatures = s.known_signatures := by
  unfold describes
  refine ⟨by simp, ?_⟩
  dsimp only
  rw [if_pos hdup]

/-- C5 counterexample: registering the same parameter-name set twice does
not raise; both extractors end up registered (describes has no failure
path in the source). -/
theorem claim5_counterexample :
    (describes (describes (Scopes.init Unit "article" false) ["category"] none
        (fun _ => ExtResult.retNone)) ["category"] none
        (fun _ => ExtResult.retNone)).extractor_fns.length = 2 ∧
    (describes (describes (Scopes.init Unit "article" false) ["category"] none
        (fun _ => ExtResult.retNone)) ["category"] none
        (fun _ => ExtResult.retNone)).known_signatures = [sortStrings ["category"]] := by
  constructor
  · rfl
  · decide

/-- C5 witness: a concrete duplicate registration. -/
theorem claim5_witness :
    (sortStrings ["category"] ∈ (describes (Scopes.init Unit "article" false)
        ["category"] none (fun _ => ExtResult.retNone)).known_signatures) ∧
    ((describes (describes (Scopes.init Unit "article" false) ["category"] none
        (fun _ => ExtResult.retNone)) ["category"] none
        (fun _ => ExtResult.raise)).extractor_fns.length
      = (describes (Scopes.init Unit "article" false) ["category"] none
        (fun _ => ExtResult.retNone)).extractor_fns.length + 1 ∧
     (describes (describes (Scopes.init Unit "article" false) ["category"] none
        (fun _ => ExtResult.retNone)) ["category"] none
        (fun _ => ExtResult.raise)).known_signatures
      = (describes (Scopes.init Unit "article" false) ["category"] none
        (fun _ => ExtResult.retNone)).known_signatures) :=
  ⟨by decide,
   claim5_duplicate_describes _ ["category"] none (fun _ => ExtResult.raise) (by decide)⟩

/-- C7: condition on a registry built by describes calls returns the
ConditionalDependency plus the kill-switch when the sorted parameter-name
signature matches some registration; otherwise it degrades to a warning
plus the kill-switch alone in production mode, and to an error in
development mode. -/
theorem claim7_condition_modes {α : Type} (ot : String) (prod : Bool)
    (regs : List (List String × Option (List String) × (α → ExtResult)))
    (conds : List (String × String)) :
    condition (buildScopes ot prod regs) conds =
      (if ∃ r ∈ regs, sortStrings r.1 = sortStrings (conds.map Prod.fst) then
        CondResult.ok [Dep.conditional ot conds, Dep.invalidateAll ot]
      else if prod then CondResult.warned [Dep.invalidateAll ot]
      else CondResult.error "no extractor function is described for this condition") := by
  unfold condition buildScopes
  have hot := foldl_describes_object_type regs (Scopes.init α ot prod)
  have hpm := foldl_describes_production_mode regs (Scopes.init α ot prod)
  have hkn := foldl_describes_known regs (Scopes.init α ot prod)
    (sortStrings (conds.map Prod.fst))
  by_cases hex : ∃ r ∈ regs, sortStrings r.1 = sortStrings (conds.map Prod.fst)
  · rw [if_pos (hkn.mpr (Or.inr hex)), if_pos hex, hot]
    rfl
  · rw [if_neg (fun hc => by
        rcases hkn.mp hc with h | h
        · exact absurd h (List.not_mem_nil _)
        · exact hex h), if_neg hex, hot, hpm]
    rfl

/-! ## Extractor runs (claims C6, C8) -/

/-- The extractor loop on a well-behaved prefix followed by a raising
extractor: whatever has been accumulated so far, and whatever extractors
remain, the loop ends at the raising extractor — in production mode with
exactly the kill-switch (the accumulator is discarded), in development mode
with the propagated error. -/
theorem goExtract_pre_raise {α : Type} (ot : String) (fns : List (ExtractorInfo α))
    (sigs : List (List String)) (prod : Bool) (item : α)
    (pre : List (ExtractorInfo α)) (e : ExtractorInfo α) (rest : List (ExtractorInfo α))
    (hpre : ∀ e' ∈ pre, e'.func item = ExtResult.retNone ∨
      ∃ params, e'.func item = ExtResult.ret params ∧
        setCanon (params.map Prod.fst) = e'.param_names)
    (h : e.func item = ExtResult.raise) :
    ∀ acc, goExtract ⟨ot, fns, sigs, prod⟩ item none (pre ++ e :: rest) acc
      = if prod then .ok [Dep.invalidateAll ot] else .error "extractor raised" := by
  induction pre with
  | nil =>
    intro acc
    simp only [List.nil_append, goExtract]
    rw [show skipQ (α := α) none e = false from rfl]
    simp only [Bool.false_eq_true, if_false]
    rw [h]
  | cons e' pres ih =>
    intro acc
    simp only [List.cons_append, goExtract]
    rw [show skipQ (α := α) none e' = false from rfl]
    simp only [Bool.false_eq_true, if_false]
    rcases hpre e' (List.mem_cons_self e' _) with hn | ⟨params, hp, hsc⟩
    · rw [hn]
      exact ih (fun x hx => hpre x (List.mem_cons_of_mem _ hx)) acc
    · rw [hp]
      dsimp only
      rw [if_pos hsc]
      exact ih (fun x hx => hpre x (List.mem_cons_of_mem _ hx)) _

/-- C6 (amended): when a registered extractor raises — after any prefix of
extractors that ran successfully and collected dependencies — strict mode
propagates the error; lenient mode immediately returns exactly the
kill-switch dependency as the whole result, discarding the dependencies
already collected from the prefix and not running the remaining
extractors. -/
theorem claim6_extractor_exception {α : Type} (ot : String)
    (sigs : List (List String)) (item : α)
    (pre : List (ExtractorInfo α)) (e : ExtractorInfo α) (rest : List (ExtractorInfo α))
    (hpre : ∀ e' ∈ pre, e'.func item = ExtResult.retNone ∨
      ∃ params, e'.func item = ExtResult.ret params ∧
        setCanon (params.map Prod.fst) = e'.param_names)
    (h : e.func item = ExtResult.raise) :
    objectInvalidates ⟨ot, pre ++ e :: rest, sigs, true⟩ item none
      = .ok [Dep.invalidateAll ot] ∧
    objectInvalidates ⟨ot, pre ++ e :: rest, sigs, false⟩ item none
      = .error "extractor raised" :=
  ⟨goExtract_pre_raise ot (pre ++ e :: rest) sigs true item pre e rest hpre h [],
   goExtract_pre_raise ot (pre ++ e :: rest) sigs false item pre e rest hpre h []⟩

/-- C6 counterexample: in lenient mode, with a first extractor that
succeeds (its dependency is collected), a second that raises, and a third
that would succeed, the result is only the kill-switch; the collected
first dependency is discarded and the third extractor's dependency is not
included, refuting the claim that processing continues with the remaining
extractors and keeps their dependencies. -/
theorem claim6_counterexample :
    objectInvalidates (describes (describes (describes
        (Scopes.init Unit "article" true)
        ["category"] none (fun _ => ExtResult.ret [("category", "x")]))
        ["author"] none (fun _ => ExtResult.raise))
        ["year"] none (fun _ => ExtResult.ret [("year", "2020")])) () none
      = .ok [Dep.invalidateAll "article"] ∧
    Dep.conditional "article" [("category", "x")] ∉ [Dep.invalidateAll "article"] ∧
    Dep.conditional "article" [("year", "2020")] ∉ [Dep.invalidateAll "article"] := by
  refine ⟨rfl, ?_, ?_⟩ <;> decide

/-- C6 witness: a three-extractor registry — a successful one before the
raiser (non-empty accumulator), and one after it. -/
theorem claim6_witness :
    (∀ e' ∈ [(⟨["a"], ["a"], fun _ => ExtResult.ret [("a", "1")]⟩ : ExtractorInfo Unit)],
      e'.func () = ExtResult.retNone ∨
      ∃ params, e'.func () = ExtResult.ret params ∧
        setCanon (params.map Prod.fst) = e'.param_names) ∧
    ((⟨["b"], ["b"], fun _ => ExtResult.raise⟩ : ExtractorInfo Unit).func ()
        = ExtResult.raise) ∧
    (objectInvalidates ⟨"article",
        [⟨["a"], ["a"], fun _ => ExtResult.ret [("a", "1")]⟩,
         ⟨["b"], ["b"], fun _ => ExtResult.raise⟩,
         ⟨["c"], ["c"], fun _ => ExtResult.ret [("c", "3")]⟩], [], true⟩ () none
      = .ok [Dep.invalidateAll "article"] ∧
     objectInvalidates ⟨"article",
        [⟨["a"], ["a"], fun _ => ExtResult.ret [("a", "1")]⟩,
         ⟨["b"], ["b"], fun _ => ExtResult.raise⟩,
         ⟨["c"], ["c"], fun _ => ExtResult.ret [("c", "3")]⟩], [], false⟩ () none
      = .error "extractor raised") :=
  ⟨fun e' he' => by
      rcases List.mem_singleton.mp he' with rfl
      exact Or.inr ⟨[("a", "1")], rfl, by decide⟩,
   rfl,
   claim6_extractor_exception "article" [] ()
     [⟨["a"], ["a"], fun _ => ExtResult.ret [("a", "1")]⟩]
     ⟨["b"], ["b"], fun _ => ExtResult.raise⟩
     [⟨["c"], ["c"], fun _ => ExtResult.ret [("c", "3")]⟩]
     (fun e' he' => by
       rcases List.mem_singleton.mp he' with rfl
       exact Or.inr ⟨[("a", "1")], rfl, by decide⟩)
     rfl⟩

theorem all_not_eq_not_any (l : List String) (q : String → Bool) :
    l.all (fun w => !(q w)) = !l.any q := by
  induction l with
  | nil => rfl
  | cons a as ih => simp [List.all_cons, List.any_cons, ih]

/-- For a non-empty modified list, the skip test is exactly the complement
of the watched-set intersection test. -/
theorem skipQ_some_ne {α : Type} (m : List String) (hm : m ≠ [])
    (e : ExtractorInfo α) :
    skipQ (some m) e = !(e.watch_modified.any (fun w => m.contains w)) := by
  unfold skipQ
  dsimp only
  rw [all_not_eq_not_any]
  have hie : m.isEmpty = false := by
    cases m with
    | nil => exact absurd rfl hm
    | cons a as => rfl
  rw [hie]
  simp only [Bool.not_false, Bool.true_and]

/-- The extractor loop with a non-empty modified list equals the loop,
without a modified list, over the extractors whose watched sets intersect
it; the registry metadata (signatures, other extractors) is irrelevant. -/
theorem goExtract_filter {α : Type} (ot : String) (fns1 fns2 : List (ExtractorInfo α))
    (sigs1 sigs2 : List (List String)) (prod : Bool) (item : α) (m : List String)
    (hm : m ≠ []) (l : List (ExtractorInfo α)) (acc : List Dep) :
    goExtract ⟨ot, fns1, sigs1, prod⟩ item (some m) l acc
      = goExtract ⟨ot, fns2, sigs2, prod⟩ item none
          (l.filter (fun e => e.watch_modified.any (fun w => m.contains w))) acc := by
  induction l generalizing acc with
  | nil => rfl
  | cons e rest ih =>
    rw [List.filter_cons]
    by_cases hp : e.watch_modified.any (fun w => m.contains w) = true
    · rw [if_pos hp]
      simp only [goExtract]
      rw [skipQ_some_ne m hm e, hp]
      simp only [Bool.not_true, Bool.false_eq_true, if_false]
      have hs : skipQ (α := α) none e = false := rfl
      rw [hs]
      simp only [Bool.false_eq_true, if_false]
      cases hfe : e.func item with
      | raise => rfl
      | retNone => exact ih acc
      | ret params =>
        dsimp only
        by_cases hsc : setCanon (params.map Prod.fst) = e.param_names
        · rw [if_pos hsc, if_pos hsc]
          exact ih _
        · rw [if_neg hsc, if_neg hsc]
    · rw [if_neg hp]
      simp only [goExtract]
      rw [skipQ_some_ne m hm e, Bool.eq_false_iff.mpr hp]
      exact ih acc

/-- The extractor loop treats an empty modified list exactly like an
omitted one: the skip test is never taken. -/
theorem goExtract_some_nil {α : Type} (s : Scopes α) (item : α)
    (l : List (ExtractorInfo α)) (acc : List Dep) :
    goExtract s item (some []) l acc = goExtract s item none l acc := by
  induction l generalizing acc with
  | nil => rfl
  | cons e rest ih =>
    simp only [goExtract]
    have h1 : skipQ (α := α) (some []) e = false := rfl
    have h2 : skipQ (α := α) none e = false := rfl
    rw [h1, h2]
    simp only [Bool.false_eq_true, if_false]
    cases hfe : e.func item with
    | raise => rfl
    | retNone => exact ih acc
    | ret params =>
      dsimp only
      by_cases hsc : setCanon (params.map Prod.fst) = e.param_names
      · rw [if_pos hsc, if_pos hsc]
        exact ih _
      · rw [if_neg hsc, if_neg hsc]

/-- C8 (amended): with a provided non-empty modified_fields collection,
object_invalidates runs exactly the extractors whose watched-field sets
intersect it; with an omitted or empty collection, it runs all extractors
(the empty collection is falsy in the source and is treated like omitted,
not like an empty intersection). -/
theorem claim8_modified_filter {α : Type} (ot : String)
    (fns : List (ExtractorInfo α)) (sigs : List (List String)) (prod : Bool)
    (item : α) (m : List String) (hm : m ≠ []) :
    objectInvalidates ⟨ot, fns, sigs, prod⟩ item (some m)
      = objectInvalidates
          ⟨ot, fns.filter (fun e => e.watch_modified.any (fun w => m.contains w)),
           sigs, prod⟩ item none ∧
    objectInvalidates ⟨ot, fns, sigs, prod⟩ item (some [])
      = objectInvalidates ⟨ot, fns, sigs, prod⟩ item none :=
  ⟨goExtract_filter ot fns (fns.filter (fun e => e.watch_modified.any (fun w => m.contains w)))
      sigs sigs prod item m hm fns [],
   goExtract_some_nil _ item fns []⟩

/-- C8 counterexample: with modified_fields given as the empty collection,
an extractor with an empty intersection is still run and its dependency is
emitted — the claim predicts that no extractor runs. -/
theorem claim8_counterexample :
    objectInvalidates (describes (Scopes.init Unit "article" false) ["category"] none
        (fun _ => ExtResult.ret [("category", "x")])) () (some [])
      = .ok [Dep.conditional "article" [("category", "x")]] ∧
    objectInvalidates (describes (Scopes.init Unit "article" false) ["category"] none
        (fun _ => ExtResult.ret [("category", "x")])) () (some [])
      ≠ .ok [] := by
  refine ⟨rfl, ?_⟩
  intro hcontra
  exact Nat.one_ne_zero (congrArg
    (fun x => match x with | Except.ok l => l.length | Except.error _ => 0) hcontra)

/-- C8 witness: a concrete registry, with a non-empty modified list that
does not intersect the extractor's watched set. -/
theorem claim8_witness :
    ((["other"] : List String) ≠ []) ∧
    (objectInvalidates ⟨"article",
        [⟨["category"], ["category"], fun (_ : Unit) => ExtResult.ret [("category", "x")]⟩],
        [], false⟩ () (some ["other"])
      = objectInvalidates ⟨"article",
          ([⟨["category"], ["category"], fun (_ : Unit) => ExtResult.ret [("category", "x")]⟩] :
            List (ExtractorInfo Unit)).filter
            (fun e => e.watch_modified.any (fun w => (["other"] : List String).contains w)),
          [], false⟩ () none ∧
     objectInvalidates ⟨"article",
        [⟨["category"], ["category"], fun (_ : Unit) => ExtResult.ret [("category", "x")]⟩],
        [], false⟩ () (some [])
      = objectInvalidates ⟨"article",
          [⟨["category"], ["category"], fun (_ : Unit) => ExtResult.ret [("category", "x")]⟩],
          [], false⟩ () none) :=
  ⟨by decide,
   claim8_modified_filter "article"
     [⟨["category"], ["category"], fun (_ : Unit) => ExtResult.ret [("category", "x")]⟩]
     [] false () ["other"] (by decide)⟩

end MatroskaCache
